import Mathlib

/-!
Shallow embedding of the `hdget` leaderboard watcher (`src/lb.rs` and
`src/main.rs`): the binary cache codec, snapshot diffing, personal-best
event formatting and the orchestration loop body, together with proofs
about them.

Modelling conventions:
* byte streams are `List Nat`, each element a byte (< 256);
* machine integers are `Nat`, with explicit `% 2 ^ w` where the source
  truncates (e.g. `str.len() as u8`);
* `f32` values are carried as their 32-bit IEEE-754 bit pattern, which
  is exactly what `read_f32_le` / `write_f32_le` move; the comparisons
  performed by the formatter are modelled on bit patterns (`f32lt`);
* the async readers/writers become pure state passing over the byte
  stream; an `Err(_)` escaping via `?` becomes `ReadOutcome.eof`, and a
  Rust panic (the `String::from_utf8(..).unwrap()` in `Entry::read`,
  the out-of-bounds indexing in `Leaderboard::cache`) is a distinguished
  outcome that is never a value.
-/

namespace Hdget

/-- A byte stream: a list of bytes (each element is < 256). -/
abbrev Bytes := List Nat

/-- One participant's ranked record (`struct Entry` in `src/lb.rs`).
`score` holds the IEEE-754 single-precision bit pattern of the `f32`. -/
structure Entry where
  rank : Nat
  name : Bytes
  user_id : Nat
  run_id : Nat
  score : Nat
deriving DecidableEq

/-- A whole leaderboard snapshot (`struct Leaderboard` in `src/lb.rs`).
`timestamp` is the duration in whole seconds since the epoch, which is
all the codec ever reads or writes of it. -/
structure Leaderboard where
  timestamp : Nat
  entries : List Entry
deriving DecidableEq

/-- A personal-best event (`struct Pb` in `src/lb.rs`); references into
the snapshots become owned copies of the entries. -/
structure Pb where
  old : Option Entry
  new : Entry
deriving DecidableEq

/-- Outcome of running a decoder on a byte stream: a value plus the
remaining stream, an end-of-stream IO error propagated by `?`, or a
panic (which aborts the whole computation and never yields a value). -/
inductive ReadOutcome (α : Type) where
  | ok (val : α) (rest : Bytes)
  | eof
  | panicked
deriving DecidableEq

/-- Sequencing of decoders: errors and panics short-circuit. -/
def ReadOutcome.bind {α β : Type} (x : ReadOutcome α)
    (f : α → Bytes → ReadOutcome β) : ReadOutcome β :=
  match x with
  | .ok a rest => f a rest
  | .eof => .eof
  | .panicked => .panicked

/-- `read_u8`: one byte, end-of-stream is an error. -/
def readU8 : Bytes → ReadOutcome Nat
  | [] => .eof
  | b :: rest => .ok b rest

/-- `read_u16_le`: two bytes, little endian. -/
def readU16le : Bytes → ReadOutcome Nat
  | b0 :: b1 :: rest => .ok (b0 + 2 ^ 8 * b1) rest
  | _ => .eof

/-- `read_u32_le`: four bytes, little endian. -/
def readU32le : Bytes → ReadOutcome Nat
  | b0 :: b1 :: b2 :: b3 :: rest =>
    .ok (b0 + 2 ^ 8 * b1 + 2 ^ 16 * b2 + 2 ^ 24 * b3) rest
  | _ => .eof

/-- `read_u64_le`: eight bytes, little endian. -/
def readU64le : Bytes → ReadOutcome Nat
  | b0 :: b1 :: b2 :: b3 :: b4 :: b5 :: b6 :: b7 :: rest =>
    .ok (b0 + 2 ^ 8 * b1 + 2 ^ 16 * b2 + 2 ^ 24 * b3 + 2 ^ 32 * b4 +
      2 ^ 40 * b5 + 2 ^ 48 * b6 + 2 ^ 56 * b7) rest
  | _ => .eof

/-- `read_f32_le` = `f32::from_bits` of a little-endian `u32`; the bit
pattern is kept as is. -/
def readF32le : Bytes → ReadOutcome Nat := readU32le

/-- `read_exact` into a buffer of length `n`: yields exactly `n` bytes
or an end-of-stream error. -/
def readExact (n : Nat) (b : Bytes) : ReadOutcome Bytes :=
  if n ≤ b.length then .ok (b.take n) (b.drop n) else .eof

/-- A UTF-8 continuation byte (`0x80..=0xBF`). -/
def utf8Cont (b : Nat) : Bool := decide (0x80 ≤ b ∧ b ≤ 0xBF)

/-- Validity of a byte sequence as UTF-8, exactly the check performed by
Rust's `String::from_utf8` (RFC 3629: no overlong forms, no surrogate
code points, nothing above U+10FFFF). `Entry::read` calls this through
`String::from_utf8(t).unwrap()`. -/
def validUtf8 : Bytes → Bool
  | [] => true
  | b :: rest =>
    if b ≤ 0x7F then validUtf8 rest
    else if b < 0xC2 then false
    else if b ≤ 0xDF then
      match rest with
      | c1 :: r => utf8Cont c1 && validUtf8 r
      | [] => false
    else if b ≤ 0xEF then
      match rest with
      | c1 :: c2 :: r =>
        (if b = 0xE0 then decide (0xA0 ≤ c1 ∧ c1 ≤ 0xBF)
         else if b = 0xED then decide (0x80 ≤ c1 ∧ c1 ≤ 0x9F)
         else utf8Cont c1) && utf8Cont c2 && validUtf8 r
      | _ => false
    else if b ≤ 0xF4 then
      match rest with
      | c1 :: c2 :: c3 :: r =>
        (if b = 0xF0 then decide (0x90 ≤ c1 ∧ c1 ≤ 0xBF)
         else if b = 0xF4 then decide (0x80 ≤ c1 ∧ c1 ≤ 0x8F)
         else utf8Cont c1) && utf8Cont c2 && utf8Cont c3 && validUtf8 r
      | _ => false
    else false

/-- `Entry::read` (`src/lb.rs` lines 24–43): rank, length-prefixed name
(invalid UTF-8 hits the `unwrap()` and panics), user id, run id, score. -/
def Entry.read (b : Bytes) : ReadOutcome Entry :=
  (readU16le b).bind fun rank b =>
  (readU8 b).bind fun len b =>
  (readExact len b).bind fun nameBytes b =>
  if validUtf8 nameBytes then
    (readU32le b).bind fun uid b =>
    (readU32le b).bind fun rid b =>
    (readF32le b).bind fun score b =>
    .ok ⟨rank, nameBytes, uid, rid, score⟩ b
  else .panicked

/-- Little-endian bytes of a `u16`. -/
def u16leBytes (n : Nat) : Bytes := [n % 2 ^ 8, n / 2 ^ 8 % 2 ^ 8]

/-- Little-endian bytes of a `u32`. -/
def u32leBytes (n : Nat) : Bytes :=
  [n % 2 ^ 8, n / 2 ^ 8 % 2 ^ 8, n / 2 ^ 16 % 2 ^ 8, n / 2 ^ 24 % 2 ^ 8]

/-- Little-endian bytes of a `u64`. -/
def u64leBytes (n : Nat) : Bytes :=
  [n % 2 ^ 8, n / 2 ^ 8 % 2 ^ 8, n / 2 ^ 16 % 2 ^ 8, n / 2 ^ 24 % 2 ^ 8,
   n / 2 ^ 32 % 2 ^ 8, n / 2 ^ 40 % 2 ^ 8, n / 2 ^ 48 % 2 ^ 8, n / 2 ^ 56 % 2 ^ 8]

/-- `Entry::write` (`src/lb.rs` lines 46–56): rank, `str.len() as u8`
(truncating length prefix) followed by all the name bytes, user id,
run id, score bits.  Writing to the buffer never fails. -/
def Entry.write (e : Entry) : Bytes :=
  u16leBytes e.rank ++ [e.name.length % 2 ^ 8] ++ e.name ++
    u32leBytes e.user_id ++ u32leBytes e.run_id ++ u32leBytes e.score

/-- The entry-reading loop of `Leaderboard::from_cache`: `n` entries in
sequence, any failure aborting the whole read. -/
def readEntries : Nat → Bytes → ReadOutcome (List Entry)
  | 0, b => .ok [] b
  | n + 1, b =>
    (Entry.read b).bind fun e b =>
    (readEntries n b).bind fun es b =>
    .ok (e :: es) b

/-- `Leaderboard::from_cache` (`src/lb.rs` lines 144–157), applied to
the contents of the cache file: a `u64` little-endian timestamp followed
by exactly 1000 entries.  Trailing bytes are ignored, matching the
source, which stops reading after the 1000th entry. -/
def Leaderboard.from_cache (b : Bytes) : ReadOutcome Leaderboard :=
  (readU64le b).bind fun ts b =>
  (readEntries 1000 b).bind fun es b =>
  .ok ⟨ts, es⟩ b

/-- The writing loop of `Leaderboard::cache`: `for entry in i..i+n`,
writing `entries[entry]`; `none` models the out-of-bounds panic. -/
def writeLoop (es : List Entry) : Nat → Nat → Option Bytes
  | _, 0 => some []
  | i, n + 1 =>
    match es.get? i with
    | some e => (writeLoop es (i + 1) n).map fun bs => e.write ++ bs
    | none => none

/-- `Leaderboard::cache` (`src/lb.rs` lines 160–173), as the byte
content written to the cache file: the `u64` little-endian timestamp in
seconds followed by entries `0..1000` by index.  `none` models the panic
of `self.entries[entry]` when the snapshot has fewer than 1000 entries. -/
def Leaderboard.cache (lb : Leaderboard) : Option Bytes :=
  (writeLoop lb.entries 0 1000).map fun bs => u64leBytes lb.timestamp ++ bs

/-! ### The `user_id → Entry` lookup used by `Pb::diff`

`HashMap<u32, &Entry>` is modelled as an association list with at most
one binding per key: `collect` inserts the pairs in iteration order with
later bindings replacing earlier ones, and `remove` deletes the binding
for a key (returning it, here recovered through `mapLookup`). -/

/-- Lookup in the association-list model of the `HashMap`. -/
def mapLookup : List (Nat × Entry) → Nat → Option Entry
  | [], _ => none
  | p :: m, k => if p.1 = k then some p.2 else mapLookup m k

/-- `HashMap::remove`: delete the binding for `k` (no-op when absent). -/
def mapErase : List (Nat × Entry) → Nat → List (Nat × Entry)
  | [], _ => []
  | p :: m, k => if p.1 = k then mapErase m k else p :: mapErase m k

/-- `HashMap::insert`: replace any existing binding for `k`. -/
def mapInsert (m : List (Nat × Entry)) (k : Nat) (v : Entry) : List (Nat × Entry) :=
  (k, v) :: mapErase m k

/-- `old.iter().map(|e| (e.user_id, e)).collect::<HashMap<_, _>>()`:
sequential insertion, later duplicates replacing earlier ones. -/
def buildMap (l : List Entry) : List (Nat × Entry) :=
  l.foldl (fun m e => mapInsert m e.user_id e) []

/-- The body of one `Pb::diff` iteration, after the baseline binding
has been removed: an equal `run_id` suppresses the event (`continue`),
otherwise an event is pushed (with the baseline entry when found). -/
def diffStep (o : Option Entry) (e : Entry) (rest : List Pb) : List Pb :=
  match o with
  | some o => if e.run_id = o.run_id then rest else Pb.mk (some o) e :: rest
  | none => Pb.mk none e :: rest

/-- The iteration of `Pb::diff` over `new` (`src/lb.rs` lines 195–206):
for each current entry the baseline binding for its `user_id` is looked
up and removed from the map, and `diffStep` decides the event. -/
def diffGo (m : List (Nat × Entry)) : List Entry → List Pb
  | [] => []
  | e :: rest =>
    diffStep (mapLookup m e.user_id) e (diffGo (mapErase m e.user_id) rest)

/-- The map state after `Pb::diff` has consumed a prefix of `new`
(used to reason about the loop by splitting the list). -/
def mapAfter (m : List (Nat × Entry)) : List Entry → List (Nat × Entry)
  | [] => m
  | e :: rest => mapAfter (mapErase m e.user_id) rest

/-- `Pb::diff` (`src/lb.rs` lines 191–209). -/
def Pb.diff (old new : List Entry) : List Pb :=
  diffGo (buildMap old) new

/-- `Leaderboard::pbs` (`src/lb.rs` lines 175–177). -/
def Leaderboard.pbs (old new : Leaderboard) : List Pb :=
  Pb.diff old.entries new.entries

/-! ### IEEE-754 single-precision comparison on bit patterns

For non-NaN singles of equal sign the order of the values is the order
of the magnitude bits (sign-and-magnitude representation, with the
biased exponent above the significand), negative values reverse it, and
the two zeros are equal.  NaN compares false with everything. -/

/-- Magnitude bits of a single: everything below the sign bit. -/
def f32mag (b : Nat) : Nat := b % 2 ^ 31

/-- NaN: biased exponent all ones and a nonzero significand, i.e. the
magnitude bits exceed those of infinity. -/
def f32isNan (b : Nat) : Bool := decide (0x7F800000 < f32mag b)

/-- Signed order key of a single: magnitude, negated for negatives.
Both zeros map to `0`. -/
def f32toOrd (b : Nat) : Int :=
  if b % 2 ^ 32 < 2 ^ 31 then (f32mag b : Int) else -(f32mag b : Int)

/-- `<` on `f32` bit patterns; false whenever either side is NaN. -/
def f32lt (a b : Nat) : Bool :=
  !f32isNan a && !f32isNan b && decide (f32toOrd a < f32toOrd b)

/-- `<=` on `f32` bit patterns; false whenever either side is NaN. -/
def f32le (a b : Nat) : Bool :=
  !f32isNan a && !f32isNan b && decide (f32toOrd a ≤ f32toOrd b)

/-- Bit pattern of `400.0f32`, the literal of the milestone check. -/
def bits400 : Nat := 0x43C80000

/-- Bit pattern of `399.0f32`. -/
def bits399 : Nat := 0x43C78000

/-- Bit pattern of `410.0f32`. -/
def bits410 : Nat := 0x43CD0000

/-! ### The formatter (`impl Display for Pb`)

The output is modelled as its sequence of lines, one constructor per
`writeln!` template, carrying exactly the data interpolated into it
(numeric rendering of scores is not further decomposed; no claim
depends on it). -/

/-- One output line of `impl Display for Pb` (`src/lb.rs` 213–249). -/
inductive Line where
  /-- `---  NEW WORLD RECORD  ---` -/
  | wr
  /-- `---  NEW 400  ---` -/
  | new400
  /-- `{name} just got a new high score! Score: {score} (+{score - old score})` -/
  | scoreDelta (name : Bytes) (score oldScore : Nat)
  /-- `They are now rank #{rank}, gaining {gain} ranks.` -/
  | rankGain (rank gain : Nat)
  /-- `They are now rank #{rank}.` -/
  | rankPlain (rank : Nat)
  /-- `{name} just got a new high score! Score: {score}` (no previous) -/
  | score (name : Bytes) (score : Nat)
  /-- `They are now rank #{rank}` (no previous) -/
  | rankNew (rank : Nat)
  /-- `Watch in-game: hyperdemon://run/{run_id}` -/
  | footer (runId : Nat)
deriving DecidableEq

/-- `impl Display for Pb` (`src/lb.rs` lines 213–249) as the list of
lines written.  The banner checks are, in order: `new.rank == 1`, then
`new.score > 400.0 && 400.0 > old.score`; the rank line uses
`old.rank.checked_sub(new.rank)`. -/
def Pb.fmt (p : Pb) : List Line :=
  match p.old with
  | some old =>
    (if p.new.rank = 1 then [Line.wr]
     else if f32lt bits400 p.new.score && f32lt old.score bits400 then [Line.new400]
     else [])
    ++ [Line.scoreDelta p.new.name p.new.score old.score]
    ++ (if p.new.rank ≤ old.rank then [Line.rankGain p.new.rank (old.rank - p.new.rank)]
        else [Line.rankPlain p.new.rank])
    ++ [Line.footer p.new.run_id]
  | none =>
    [Line.score p.new.name p.new.score, Line.rankNew p.new.rank,
     Line.footer p.new.run_id]

/-! ### The steady-state poll cycle (`src/main.rs` lines 22–45)

One iteration of the orchestration loop, with the IO at the boundaries
(scrape, webhook, file write) assumed to succeed — a failing boundary
makes `?` abort the process before the cycle completes.  The result is
the baseline for the next cycle, the snapshot written to the cache file
(`none` when the file is untouched), and the events sent to the hook. -/

/-- One steady-state loop iteration: `captured` is the result of
`Leaderboard::from_site` (`None` ⇒ `continue`).  Events are diffed; only
when at least one event exists are they sent, the new snapshot cached,
and the baseline replaced. -/
def loopBody (old : Leaderboard) (captured : Option Leaderboard) :
    Leaderboard × Option Leaderboard × List Pb :=
  match captured with
  | none => (old, none, [])
  | some new =>
    let pbs := old.pbs new
    if pbs = [] then (old, none, [])
    else (new, some new, pbs)

/-! ### Well-formedness of an entry as it sits in a Rust `Entry`

Field ranges guaranteed by the Rust types (`u16`, `u32`, `f32` bits,
`String` holding valid UTF-8) plus the spec's 255-byte name bound. -/

/-- Invariants of a Rust `Entry` value, plus the ≤ 255-byte name bound
required by the encoded form's one-byte length prefix. -/
def Entry.WF (e : Entry) : Prop :=
  e.rank < 2 ^ 16 ∧ e.name.length ≤ 255 ∧ (∀ b ∈ e.name, b < 2 ^ 8) ∧
    validUtf8 e.name = true ∧ e.user_id < 2 ^ 32 ∧ e.run_id < 2 ^ 32 ∧
    e.score < 2 ^ 32

instance (e : Entry) : Decidable e.WF := by
  unfold Entry.WF; infer_instance

/-! ### Concrete inputs used by witnesses and counterexamples -/

/-- A cache image whose first entry's name byte is `0xFF`, which is not
valid UTF-8: timestamp `0`, then rank `0`, name length `1`, name `0xFF`. -/
def badCache : Bytes := [0, 0, 0, 0, 0, 0, 0, 0, 0, 0, 1, 0xFF]

/-- A small well-formed entry (name `"hi"`). -/
def entW : Entry := ⟨1, [104, 105], 7, 9, bits400⟩

/-- A snapshot with exactly 1000 well-formed entries. -/
def lbW : Leaderboard := ⟨1234, List.replicate 1000 entW⟩

/-- Baseline of the spec's worked example (§8): possm then fennekal. -/
def lbOldW : Leaderboard :=
  ⟨0, [⟨1, [112], 1, 1, bits400⟩, ⟨2, [102], 2, 2, bits399⟩]⟩

/-- Current snapshot of the spec's worked example (§8). -/
def lbNewW : Leaderboard :=
  ⟨600, [⟨1, [102], 2, 3, bits410⟩, ⟨2, [112], 1, 1, bits400⟩]⟩

/-- Boundary event for the 400 banner: previous score exactly `400.0`,
current score `410.0`, current rank 2. -/
def oldC3 : Entry := ⟨3, [97], 5, 1, bits400⟩

/-- The current entry of the boundary event. -/
def newC3 : Entry := ⟨2, [97], 5, 2, bits410⟩

/-- The boundary `Pb` event for claim C3. -/
def pbC3 : Pb := ⟨some oldC3, newC3⟩

/-- Previous entry below 400 (score `399.0`, rank 2). -/
def oldW3 : Entry := ⟨2, [97], 5, 1, bits399⟩

/-- A non-boundary milestone event: `399.0 → 410.0`, rank stays 2. -/
def pbW3 : Pb := ⟨some oldW3, ⟨2, [97], 5, 2, bits410⟩⟩

/-- A world-record event whose 400-milestone condition also holds:
`399.0 → 410.0` and rank 2 → 1. -/
def pbW9 : Pb := ⟨some oldW3, ⟨1, [97], 5, 2, bits410⟩⟩

/-- Baseline for the duplicate-`user_id` witness: user 5 is present. -/
def dupOld : List Entry := [⟨1, [97], 5, 1, bits399⟩]

/-- Current list with two entries for user 5 (violating the snapshot
invariant); the second one follows a first occurrence. -/
def dupNew : List Entry := [⟨1, [98], 5, 2, bits400⟩, ⟨2, [99], 5, 3, bits410⟩]

/-! ## Helper lemmas: the lookup map -/

theorem mapLookup_mapErase_ne (m : List (Nat × Entry)) (k k' : Nat) (h : k ≠ k') :
    mapLookup (mapErase m k') k = mapLookup m k := by
  induction m with
  | nil => rfl
  | cons p m ih =>
    by_cases hp : p.1 = k'
    · rw [mapErase, if_pos hp, ih, mapLookup, if_neg (by omega)]
    · rw [mapErase, if_neg hp, mapLookup, mapLookup]
      by_cases hk : p.1 = k
      · rw [if_pos hk, if_pos hk]
      · rw [if_neg hk, if_neg hk, ih]

theorem mapLookup_mapErase_self (m : List (Nat × Entry)) (k : Nat) :
    mapLookup (mapErase m k) k = none := by
  induction m with
  | nil => rfl
  | cons p m ih =>
    by_cases hp : p.1 = k
    · rw [mapErase, if_pos hp, ih]
    · rw [mapErase, if_neg hp, mapLookup, if_neg hp, ih]

theorem mapLookup_mapErase_none (m : List (Nat × Entry)) (k k' : Nat)
    (h : mapLookup m k = none) : mapLookup (mapErase m k') k = none := by
  by_cases hk : k = k'
  · rw [hk, mapLookup_mapErase_self]
  · rw [mapLookup_mapErase_ne m k k' hk, h]

theorem mapLookup_mapInsert_self (m : List (Nat × Entry)) (k : Nat) (v : Entry) :
    mapLookup (mapInsert m k v) k = some v := by
  rw [mapInsert, mapLookup, if_pos rfl]

theorem mapLookup_mapInsert_ne (m : List (Nat × Entry)) (k k' : Nat) (v : Entry)
    (h : k ≠ k') : mapLookup (mapInsert m k' v) k = mapLookup m k := by
  rw [mapInsert, mapLookup, if_neg (by omega), mapLookup_mapErase_ne m k k' h]

theorem mapLookup_foldl_insert_not_mem (l : List Entry) (m : List (Nat × Entry))
    (k : Nat) (h : k ∉ l.map Entry.user_id) :
    mapLookup (l.foldl (fun m e => mapInsert m e.user_id e) m) k = mapLookup m k := by
  induction l generalizing m with
  | nil => rfl
  | cons e t ih =>
    simp only [List.map_cons, List.mem_cons, not_or] at h
    rw [List.foldl_cons, ih _ h.2, mapLookup_mapInsert_ne _ _ _ _ h.1]

theorem mapLookup_buildMap_aux (l : List Entry) (m : List (Nat × Entry)) (e : Entry)
    (hn : (l.map Entry.user_id).Nodup) (he : e ∈ l) :
    mapLookup (l.foldl (fun m e => mapInsert m e.user_id e) m) e.user_id = some e := by
  induction l generalizing m with
  | nil => exact absurd he (List.not_mem_nil e)
  | cons h t ih =>
    rw [List.map_cons, List.nodup_cons] at hn
    rcases List.mem_cons.mp he with rfl | ht
    · rw [List.foldl_cons,
        mapLookup_foldl_insert_not_mem t _ e.user_id hn.1,
        mapLookup_mapInsert_self]
    · exact ih _ hn.2 ht

/-- With unique `user_id`s, the map `Pb::diff` builds over the baseline
maps each entry's `user_id` to that entry. -/
theorem mapLookup_buildMap (l : List Entry) (e : Entry)
    (hn : (l.map Entry.user_id).Nodup) (he : e ∈ l) :
    mapLookup (buildMap l) e.user_id = some e :=
  mapLookup_buildMap_aux l [] e hn he

/-! ## Helper lemmas: the diff loop -/

theorem diffStep_mem (o : Option Entry) (e : Entry) (rest : List Pb) (p : Pb)
    (hp : p ∈ diffStep o e rest) : p.new = e ∨ p ∈ rest := by
  rcases o with _ | o
  · rcases List.mem_cons.mp hp with rfl | hp
    · exact Or.inl rfl
    · exact Or.inr hp
  · by_cases hr : e.run_id = o.run_id
    · rw [diffStep, if_pos hr] at hp
      exact Or.inr hp
    · rw [diffStep, if_neg hr] at hp
      rcases List.mem_cons.mp hp with rfl | hp
      · exact Or.inl rfl
      · exact Or.inr hp

theorem diffGo_new_mem (m : List (Nat × Entry)) (l : List Entry) (p : Pb)
    (hp : p ∈ diffGo m l) : p.new ∈ l := by
  induction l generalizing m with
  | nil => exact absurd hp (List.not_mem_nil p)
  | cons e t ih =>
    rw [diffGo] at hp
    rcases diffStep_mem _ _ _ _ hp with he | hp
    · exact he ▸ List.mem_cons_self e t
    · exact List.mem_cons_of_mem e (ih _ hp)

theorem diffStep_map_new_sublist (o : Option Entry) (e : Entry) (t : List Entry)
    (rest : List Pb) (h : List.Sublist (rest.map Pb.new) t) :
    List.Sublist ((diffStep o e rest).map Pb.new) (e :: t) := by
  rcases o with _ | o
  · exact List.Sublist.cons₂ e h
  · by_cases hr : e.run_id = o.run_id
    · rw [diffStep, if_pos hr]
      exact List.Sublist.cons e h
    · rw [diffStep, if_neg hr]
      exact List.Sublist.cons₂ e h

theorem diffGo_map_new_sublist (m : List (Nat × Entry)) (l : List Entry) :
    List.Sublist ((diffGo m l).map Pb.new) l := by
  induction l generalizing m with
  | nil => simp [diffGo]
  | cons e t ih =>
    rw [diffGo]
    exact diffStep_map_new_sublist _ e t _ (ih _)

theorem diffStep_append (o : Option Entry) (e : Entry) (r1 r2 : List Pb) :
    diffStep o e r1 ++ r2 = diffStep o e (r1 ++ r2) := by
  rcases o with _ | o
  · rfl
  · by_cases hr : e.run_id = o.run_id
    · rw [diffStep, diffStep, if_pos hr, if_pos hr]
    · rw [diffStep, diffStep, if_neg hr, if_neg hr, List.cons_append]

theorem diffGo_append (m : List (Nat × Entry)) (a b : List Entry) :
    diffGo m (a ++ b) = diffGo m a ++ diffGo (mapAfter m a) b := by
  induction a generalizing m with
  | nil => rw [List.nil_append, diffGo, mapAfter, List.nil_append]
  | cons e t ih =>
    rw [List.cons_append, diffGo, diffGo, mapAfter, ih, diffStep_append]

theorem mapLookup_mapAfter_none (m : List (Nat × Entry)) (l : List Entry) (k : Nat)
    (h : mapLookup m k = none) : mapLookup (mapAfter m l) k = none := by
  induction l generalizing m with
  | nil => exact h
  | cons e t ih => exact ih _ (mapLookup_mapErase_none m k e.user_id h)

theorem mapLookup_mapAfter_mem (m : List (Nat × Entry)) (l : List Entry) (k : Nat)
    (h : k ∈ l.map Entry.user_id) : mapLookup (mapAfter m l) k = none := by
  induction l generalizing m with
  | nil => exact absurd h (List.not_mem_nil k)
  | cons e t ih =>
    rw [mapAfter]
    by_cases he : k = e.user_id
    · exact mapLookup_mapAfter_none _ t k (he ▸ mapLookup_mapErase_self m e.user_id)
    · simp only [List.map_cons, List.mem_cons] at h
      exact ih _ (h.resolve_left he)

theorem diffGo_self_nil (l : List Entry) (m : List (Nat × Entry))
    (hl : ∀ e ∈ l, mapLookup m e.user_id = some e)
    (hn : (l.map Entry.user_id).Nodup) : diffGo m l = [] := by
  induction l generalizing m with
  | nil => rfl
  | cons e t ih =>
    rw [List.map_cons, List.nodup_cons] at hn
    rw [diffGo, hl e (List.mem_cons_self e t), diffStep, if_pos rfl]
    refine ih _ (fun e' he' => ?_) hn.2
    have hne : e'.user_id ≠ e.user_id := by
      intro hk
      have hmem : e'.user_id ∈ List.map Entry.user_id t :=
        List.mem_map_of_mem Entry.user_id he'
      rw [hk] at hmem
      exact hn.1 hmem
    rw [mapLookup_mapErase_ne _ _ _ hne]
    exact hl e' (List.mem_cons_of_mem e he')

theorem diffGo_run_eq_no_event (l : List Entry) (m : List (Nat × Entry))
    (u : Nat) (o en : Entry) (hl : mapLookup m u = some o)
    (hn : (l.map Entry.user_id).Nodup) (hen : en ∈ l)
    (huid : en.user_id = u) (hrun : o.run_id = en.run_id) :
    ∀ p ∈ diffGo m l, p.new.user_id ≠ u := by
  induction l generalizing m with
  | nil => exact absurd hen (List.not_mem_nil en)
  | cons h t ih =>
    rw [List.map_cons, List.nodup_cons] at hn
    by_cases hu : h.user_id = u
    · have het : en = h := by
        rcases List.mem_cons.mp hen with rfl | ht
        · rfl
        · have hmem : en.user_id ∈ List.map Entry.user_id t :=
            List.mem_map_of_mem Entry.user_id ht
          rw [huid, ← hu] at hmem
          exact absurd hmem hn.1
      rw [diffGo, hu, hl, diffStep, if_pos (het ▸ hrun.symm)]
      intro p hp hpu
      have hmem : p.new.user_id ∈ List.map Entry.user_id t :=
        List.mem_map_of_mem Entry.user_id (diffGo_new_mem _ _ _ hp)
      rw [hpu, ← hu] at hmem
      exact hn.1 hmem
    · have hent : en ∈ t := by
        rcases List.mem_cons.mp hen with rfl | ht
        · exact absurd huid hu
        · exact ht
      have htail : ∀ p ∈ diffGo (mapErase m h.user_id) t, p.new.user_id ≠ u := by
        refine ih _ ?_ hn.2 hent
        rw [mapLookup_mapErase_ne _ _ _ (fun hk => hu hk.symm), hl]
      rw [diffGo]
      intro p hp
      rcases diffStep_mem _ _ _ _ hp with he | hp
      · rw [he]; exact hu
      · exact htail p hp

/-! ## Helper lemmas: the codec -/

theorem readU16le_u16leBytes (n : Nat) (r : Bytes) (h : n < 2 ^ 16) :
    readU16le (u16leBytes n ++ r) = ReadOutcome.ok n r := by
  show ReadOutcome.ok (n % 2 ^ 8 + 2 ^ 8 * (n / 2 ^ 8 % 2 ^ 8)) r = ReadOutcome.ok n r
  congr 1
  omega

theorem readU32le_u32leBytes (n : Nat) (r : Bytes) (h : n < 2 ^ 32) :
    readU32le (u32leBytes n ++ r) = ReadOutcome.ok n r := by
  show ReadOutcome.ok (n % 2 ^ 8 + 2 ^ 8 * (n / 2 ^ 8 % 2 ^ 8) +
    2 ^ 16 * (n / 2 ^ 16 % 2 ^ 8) + 2 ^ 24 * (n / 2 ^ 24 % 2 ^ 8)) r = ReadOutcome.ok n r
  congr 1
  omega

theorem readU64le_u64leBytes (n : Nat) (r : Bytes) (h : n < 2 ^ 64) :
    readU64le (u64leBytes n ++ r) = ReadOutcome.ok n r := by
  show ReadOutcome.ok (n % 2 ^ 8 + 2 ^ 8 * (n / 2 ^ 8 % 2 ^ 8) +
    2 ^ 16 * (n / 2 ^ 16 % 2 ^ 8) + 2 ^ 24 * (n / 2 ^ 24 % 2 ^ 8) +
    2 ^ 32 * (n / 2 ^ 32 % 2 ^ 8) + 2 ^ 40 * (n / 2 ^ 40 % 2 ^ 8) +
    2 ^ 48 * (n / 2 ^ 48 % 2 ^ 8) + 2 ^ 56 * (n / 2 ^ 56 % 2 ^ 8)) r = ReadOutcome.ok n r
  congr 1
  omega

theorem readExact_append (b r : Bytes) :
    readExact b.length (b ++ r) = ReadOutcome.ok b r := by
  rw [readExact, if_pos (by rw [List.length_append]; omega)]
  rw [List.take_left, List.drop_left]

theorem ReadOutcome.bind_ok {α β : Type} (a : α) (rest : Bytes)
    (f : α → Bytes → ReadOutcome β) :
    (ReadOutcome.ok a rest).bind f = f a rest := rfl

theorem readU8_cons (b : Nat) (rest : Bytes) :
    readU8 (b :: rest) = ReadOutcome.ok b rest := rfl

/-- Decoding inverts encoding for one well-formed entry, leaving the
rest of the stream untouched. -/
theorem Entry.read_write (e : Entry) (r : Bytes) (h : e.WF) :
    Entry.read (e.write ++ r) = ReadOutcome.ok e r := by
  obtain ⟨hrank, hlen, -, hutf, huid, hrid, hscore⟩ := h
  have hlen' : e.name.length % 2 ^ 8 = e.name.length := by omega
  rw [Entry.read, Entry.write]
  simp only [List.append_assoc, List.singleton_append, List.cons_append,
    List.nil_append]
  rw [readU16le_u16leBytes _ _ hrank, ReadOutcome.bind_ok]
  rw [readU8_cons, ReadOutcome.bind_ok, hlen']
  rw [readExact_append, ReadOutcome.bind_ok, hutf, if_pos rfl]
  rw [readU32le_u32leBytes _ _ huid, ReadOutcome.bind_ok]
  rw [readU32le_u32leBytes _ _ hrid, ReadOutcome.bind_ok]
  rw [readF32le, readU32le_u32leBytes _ _ hscore, ReadOutcome.bind_ok]

/-- Decoding inverts encoding for a sequence of well-formed entries. -/
theorem readEntries_writeAll (es : List Entry) (r : Bytes)
    (h : ∀ e ∈ es, e.WF) :
    readEntries es.length ((es.map Entry.write).flatten ++ r) =
      ReadOutcome.ok es r := by
  induction es with
  | nil => rfl
  | cons e t ih =>
    rw [List.length_cons, readEntries, List.map_cons, List.flatten_cons,
      List.append_assoc, Entry.read_write e _ (h e (List.mem_cons_self e t)),
      ReadOutcome.bind, ih (fun e' he' => h e' (List.mem_cons_of_mem e he')),
      ReadOutcome.bind]

/-- The `Leaderboard::cache` write loop succeeds and writes the entries
`i, i+1, …, i+n-1` in order as long as they are all in bounds. -/
theorem writeLoop_eq (es : List Entry) (i n : Nat) (h : i + n ≤ es.length) :
    writeLoop es i n = some (((es.drop i).take n).map Entry.write).flatten := by
  induction n generalizing i with
  | zero => simp [writeLoop]
  | succ n ih =>
    have hi : i < es.length := by omega
    rw [writeLoop, List.get?_eq_get hi, ih (i + 1) (by omega)]
    rw [List.drop_eq_getElem_cons hi, List.take_succ_cons, List.map_cons,
      List.flatten_cons]
    rfl

/-- `Leaderboard::cache` on a snapshot with at least 1000 entries:
the timestamp bytes followed by the first 1000 encoded entries. -/
theorem cache_closed_form (lb : Leaderboard) (h : 1000 ≤ lb.entries.length) :
    Leaderboard.cache lb =
      some (u64leBytes lb.timestamp ++
        ((lb.entries.take 1000).map Entry.write).flatten) := by
  rw [Leaderboard.cache, writeLoop_eq lb.entries 0 1000 (by omega), List.drop_zero]
  rfl

/-! ## Helper lemmas: unfolding equations stated on constructors -/

theorem lbW_entries_length : lbW.entries.length = 1000 :=
  List.length_replicate 1000 entW

theorem diffGo_cons (m : List (Nat × Entry)) (e : Entry) (rest : List Entry) :
    diffGo m (e :: rest) =
      diffStep (mapLookup m e.user_id) e (diffGo (mapErase m e.user_id) rest) := rfl

theorem Pb.fmt_mk_some (o pn : Entry) :
    Pb.fmt ⟨some o, pn⟩ =
      (if pn.rank = 1 then [Line.wr]
       else if f32lt bits400 pn.score && f32lt o.score bits400 then [Line.new400]
       else [])
      ++ [Line.scoreDelta pn.name pn.score o.score]
      ++ (if pn.rank ≤ o.rank then [Line.rankGain pn.rank (o.rank - pn.rank)]
          else [Line.rankPlain pn.rank])
      ++ [Line.footer pn.run_id] := rfl

/-! ## The claims -/

/-- Claim C1 (code_bug evidence): decoding a cache whose name field
holds the byte `0xFF`, which is not valid UTF-8, panics — the
`String::from_utf8(t).unwrap()` in `Entry::read` aborts the process
instead of surfacing a `DecodeError`/`IOError` result as the claim
(and the spec's recovery policy in §7) requires. -/
theorem c1_invalid_utf8_panics :
    Leaderboard.from_cache badCache = ReadOutcome.panicked := by decide

/-- Claim C2 (amended): for every snapshot with at least 1000 entries,
`Leaderboard::cache` succeeds — every indexing of `entries` is in
bounds — and writes the `u64` little-endian timestamp followed by
exactly the first 1000 encoded entries.  (As stated over *every*
snapshot the claim is false: with fewer than 1000 entries the indexing
`self.entries[entry]` is out of bounds and panics, see the
counterexample.) -/
theorem c2_cache_layout (lb : Leaderboard) (h : 1000 ≤ lb.entries.length) :
    Leaderboard.cache lb =
      some (u64leBytes lb.timestamp ++
        ((lb.entries.take 1000).map Entry.write).flatten) :=
  cache_closed_form lb h

/-- Witness for C2: the 1000-entry snapshot `lbW` is cached successfully
with the stated layout. -/
theorem c2_witness :
    Leaderboard.cache lbW =
      some (u64leBytes lbW.timestamp ++
        ((lbW.entries.take 1000).map Entry.write).flatten) :=
  c2_cache_layout lbW (le_of_eq lbW_entries_length.symm)

/-- Counterexample for C2 as stated: on the empty snapshot the very
first indexing `self.entries[0]` is out of bounds, so `cache` panics
instead of returning success or an `IOError`. -/
theorem c2_counterexample : Leaderboard.cache ⟨0, []⟩ = none := by decide

/-- Claim C3 (amended): with a previous entry and current rank ≠ 1, the
output begins with the "NEW 400" banner iff `current.score > 400.0` and
`previous.score < 400.0` — strictly: the code tests `400.0 > old.score`,
so the boundary `previous.score == 400.0` produces no banner, contrary
to the claim's `previous.score <= 400.0`. -/
theorem c3_milestone_banner_iff (p : Pb) (o : Entry) (ho : p.old = some o)
    (hr : p.new.rank ≠ 1) :
    (Pb.fmt p).head? = some Line.new400 ↔
      (f32lt bits400 p.new.score && f32lt o.score bits400) = true := by
  obtain ⟨po, pn⟩ := p
  have ho' : po = some o := ho
  subst ho'
  have hr' : pn.rank ≠ 1 := hr
  rw [Pb.fmt_mk_some, if_neg hr']
  by_cases hc : (f32lt bits400 pn.score && f32lt o.score bits400) = true
  · rw [if_pos hc]
    simp [hc]
  · rw [if_neg hc]
    simp [hc]

/-- Witness for C3: a `399.0 → 410.0` improvement at rank 2 satisfies
the strict condition and the banner is the first line. -/
theorem c3_witness :
    (Pb.fmt pbW3).head? = some Line.new400 ↔
      (f32lt bits400 pbW3.new.score && f32lt oldW3.score bits400) = true :=
  c3_milestone_banner_iff pbW3 oldW3 rfl (by decide)

/-- Counterexample for C3 as stated: on a `400.0 → 410.0` improvement at
rank 2, `current.score > 400.0` and `previous.score <= 400.0` both hold
(the boundary case the claim includes), yet the formatted output does
not begin with the "NEW 400" banner. -/
theorem c3_counterexample :
    pbC3.old = some oldC3 ∧ pbC3.new.rank ≠ 1 ∧
      f32lt bits400 pbC3.new.score = true ∧ f32le oldC3.score bits400 = true ∧
      (Pb.fmt pbC3).head? ≠ some Line.new400 := by decide

/-- Claim C4: in a steady-state poll cycle whose capture succeeded (and
whose boundary IO succeeds), the fresh snapshot is written to the cache
file and installed as the baseline iff the diff produced at least one
event; with zero events the baseline is kept and nothing is written. -/
theorem c4_persist_iff_events (old new : Leaderboard) :
    (((loopBody old (some new)).2.1 = some new ∧
        (loopBody old (some new)).1 = new) ↔ old.pbs new ≠ []) ∧
    (old.pbs new = [] →
      (loopBody old (some new)).1 = old ∧ (loopBody old (some new)).2.1 = none) := by
  by_cases h : old.pbs new = [] <;> simp [loopBody, h]

/-- Witness for C4: diffing the example snapshot against itself yields
no events, and the cycle keeps the baseline and writes nothing. -/
theorem c4_witness :
    (loopBody lbOldW (some lbOldW)).1 = lbOldW ∧
      (loopBody lbOldW (some lbOldW)).2.1 = none :=
  (c4_persist_iff_events lbOldW lbOldW).2 (by decide)

/-- Claim C5: for every snapshot with exactly 1000 well-formed entries
(names ≤ 255 bytes of valid UTF-8, fields in their machine ranges),
decoding the encoding yields the snapshot back, field for field, with
the whole stream consumed. -/
theorem c5_roundtrip (lb : Leaderboard) (hlen : lb.entries.length = 1000)
    (hwf : ∀ e ∈ lb.entries, e.WF) (ht : lb.timestamp < 2 ^ 64) :
    ∃ bs, Leaderboard.cache lb = some bs ∧
      Leaderboard.from_cache bs = ReadOutcome.ok lb [] := by
  refine ⟨_, cache_closed_form lb (by omega), ?_⟩
  rw [List.take_of_length_le (le_of_eq hlen)]
  rw [Leaderboard.from_cache, readU64le_u64leBytes _ _ ht, ReadOutcome.bind_ok]
  rw [← hlen]
  have hre := readEntries_writeAll lb.entries [] hwf
  rw [List.append_nil] at hre
  rw [hre, ReadOutcome.bind_ok]

/-- Witness for C5: the concrete 1000-entry snapshot `lbW` decodes back
to itself. -/
theorem c5_witness :
    ∃ bs, Leaderboard.cache lbW = some bs ∧
      Leaderboard.from_cache bs = ReadOutcome.ok lbW [] :=
  c5_roundtrip lbW lbW_entries_length
    (by
      intro e he
      have he' : e ∈ List.replicate 1000 entW := he
      rw [List.eq_of_mem_replicate he']
      decide)
    (by decide)

/-- Claim C6: diffing a snapshot with unique `user_id`s against itself
produces no events. -/
theorem c6_diff_identity (lb : Leaderboard)
    (h : (lb.entries.map Entry.user_id).Nodup) : lb.pbs lb = [] := by
  rw [Leaderboard.pbs, Pb.diff]
  exact diffGo_self_nil lb.entries (buildMap lb.entries)
    (fun e he => mapLookup_buildMap lb.entries e h he) h

/-- Witness for C6: the example baseline diffed against itself. -/
theorem c6_witness : Leaderboard.pbs lbOldW lbOldW = [] :=
  c6_diff_identity lbOldW (by decide)

/-- Claim C7: under the per-snapshot uniqueness invariant, a participant
appearing in both snapshots with equal `run_id` produces no event, no
matter how the scores or ranks differ. -/
theorem c7_same_run_suppression (old new : Leaderboard) (eo en : Entry)
    (hoN : (old.entries.map Entry.user_id).Nodup)
    (hnN : (new.entries.map Entry.user_id).Nodup)
    (heo : eo ∈ old.entries) (hen : en ∈ new.entries)
    (huid : eo.user_id = en.user_id) (hrun : eo.run_id = en.run_id) :
    ∀ p ∈ old.pbs new, p.new.user_id ≠ en.user_id := by
  rw [Leaderboard.pbs, Pb.diff]
  refine diffGo_run_eq_no_event new.entries (buildMap old.entries)
    en.user_id eo en ?_ hnN hen rfl hrun
  rw [← huid]
  exact mapLookup_buildMap old.entries eo hoN heo

/-- Witness for C7: in the spec's worked example user 1 keeps `run_id`
1 while their rank changes from 1 to 2; no event mentions user 1. -/
theorem c7_witness :
    (Leaderboard.pbs lbOldW lbNewW).all (fun p => decide (p.new.user_id ≠ 1)) = true :=
  List.all_eq_true.mpr fun p hp =>
    decide_eq_true (c7_same_run_suppression lbOldW lbNewW
      ⟨1, [112], 1, 1, bits400⟩ ⟨2, [112], 1, 1, bits400⟩
      (by decide) (by decide) (by decide) (by decide) rfl rfl p hp)

/-- Claim C8: the events come out in the order of `current.entries`: the
current entries of the produced events form a sublist (an
order-preserving subsequence) of `current.entries`. -/
theorem c8_diff_ordering (old new : Leaderboard) :
    List.Sublist ((old.pbs new).map Pb.new) new.entries := by
  rw [Leaderboard.pbs, Pb.diff]
  exact diffGo_map_new_sublist _ _

/-- Claim C9: with a previous entry and current rank 1 the output
carries the world-record banner and never the 400-milestone banner —
`rank == 1` is checked first and the milestone branch is its `else`. -/
theorem c9_world_record_precedence (p : Pb) (o : Entry) (ho : p.old = some o)
    (hr : p.new.rank = 1) :
    Line.wr ∈ Pb.fmt p ∧ Line.new400 ∉ Pb.fmt p := by
  obtain ⟨po, pn⟩ := p
  have ho' : po = some o := ho
  subst ho'
  have hr' : pn.rank = 1 := hr
  rw [Pb.fmt_mk_some, if_pos hr']
  by_cases hc : pn.rank ≤ o.rank <;> simp [hc]

/-- Witness for C9: a rank 2 → 1 improvement from `399.0` to `410.0`:
the 400-milestone condition holds as well, yet only the world-record
banner appears. -/
theorem c9_witness :
    (f32lt bits400 pbW9.new.score && f32lt oldW3.score bits400) = true ∧
      Line.wr ∈ Pb.fmt pbW9 ∧ Line.new400 ∉ Pb.fmt pbW9 :=
  ⟨by decide, c9_world_record_precedence pbW9 oldW3 rfl rfl⟩

/-- Claim C10: when a `user_id` occurs at two positions `i < j` of the
current list, the entry at `j` produces an event with `previous` absent
— the baseline binding was already removed when position `i` was
processed — regardless of the baseline (in particular even when the
baseline contains that `user_id`). -/
theorem c10_duplicate_uid (old new : List Entry) (i j : Nat) (hij : i < j)
    (hj : j < new.length)
    (huid : (new.get ⟨i, Nat.lt_trans hij hj⟩).user_id =
      (new.get ⟨j, hj⟩).user_id) :
    Pb.mk none (new.get ⟨j, hj⟩) ∈ Pb.diff old new := by
  rw [Pb.diff]
  have key : diffGo (buildMap old) new =
      diffGo (buildMap old) (new.take j) ++
        diffGo (mapAfter (buildMap old) (new.take j)) (new.drop j) := by
    conv_lhs => rw [← List.take_append_drop j new]
    exact diffGo_append _ _ _
  rw [key]
  refine List.mem_append_right _ ?_
  have hdrop : new.drop j = new.get ⟨j, hj⟩ :: new.drop (j + 1) := by
    rw [List.drop_eq_getElem_cons hj]
    rfl
  have hnone : mapLookup (mapAfter (buildMap old) (new.take j))
      (new.get ⟨j, hj⟩).user_id = none := by
    apply mapLookup_mapAfter_mem
    rw [← huid]
    refine List.mem_map_of_mem Entry.user_id ?_
    have h1 : i < (new.take j).length := by
      rw [List.length_take]
      omega
    have h2 : (new.take j).get ⟨i, h1⟩ = new.get ⟨i, Nat.lt_trans hij hj⟩ := by
      simp [List.getElem_take]
    exact h2 ▸ List.get_mem (new.take j) i h1
  rw [hdrop, diffGo_cons, hnone]
  exact List.mem_cons_self _ _

/-- Witness for C10: the baseline holds user 5; the current list holds
user 5 twice, and the second occurrence yields an event with no
previous entry. -/
theorem c10_witness :
    Pb.mk none ⟨2, [99], 5, 3, bits410⟩ ∈ Pb.diff dupOld dupNew :=
  c10_duplicate_uid dupOld dupNew 0 1 (by omega) (by decide) (by decide)

end Hdget
